import Mathlib

/-!
Verification of the comment-to-syntax-node association engine of
`packages/parser-js/src/index.js`: the `leftPad` sort-key padding helper, the
`_addComment` deduplicating comment processor (visited-set, association map,
constructor-merge rule) and the `parseJavaScript` orchestrator.

Machine integers do not occur: line numbers, columns and character offsets are
JavaScript numbers used as non-negative integers, embedded as `Nat`. JavaScript
object identity (for syntax-tree nodes and for comment records) is embedded via
explicit identifiers: nodes carry an `id` field, and comment records live in an
explicit heap (`St.heap`) addressed by allocation index, so that the mutation
`parentComment.constructorComment = comment` is visible through every alias.
-/

/-- A line/column position inside a source file, as in a Babel `loc` object. -/
structure Position where
  line : Nat
  column : Nat
deriving DecidableEq

/-- A source range with a start and an end position (`loc` in Babel). -/
structure Loc where
  start : Position
  stop : Position
deriving DecidableEq

/-- A syntax-tree node: object identity (`id`), its Babel `type` string, the
`kind` field of class members, and its character offsets `start`/`end`. -/
structure Node where
  id : Nat
  type : String
  kind : String
  start : Nat
  stop : Nat
deriving DecidableEq

/-- A Babel traversal path: the current node together with the chain of its
ancestors (`parentPath`). -/
inductive NodePath where
  | root (node : Node)
  | child (node : Node) (parent : NodePath)
deriving DecidableEq

/-- The node at the end of the path (`path.node`). -/
def NodePath.node : NodePath → Node
  | .root n => n
  | .child n _ => n

/-- The parent path (`path.parentPath`), absent at the tree root. -/
def NodePath.parentPath : NodePath → Option NodePath
  | .root _ => none
  | .child _ p => some p

/-- The node of `path.parentPath.parentPath`, when both ancestors exist. The
source dereferences this unconditionally in the constructor branch; a Babel
`ClassMethod` path always has a `ClassBody` parent and a class grandparent. -/
def NodePath.grandparentNode (p : NodePath) : Option Node :=
  match p.parentPath with
  | some pp =>
    match pp.parentPath with
    | some gp => some gp.node
    | none => none
  | none => none

/-- A JavaScript property value occurring in the context object: a source
range, a string, or a node-path handle. -/
inductive JsValue where
  | loc (l : Loc)
  | str (s : String)
  | path (p : NodePath)
deriving DecidableEq

/-- One property of a JavaScript object, with its enumerability flag (the
source installs `ast` via `Object.defineProperty` with `enumerable: false`). -/
structure JsProp where
  key : String
  enumerable : Bool
  value : JsValue
deriving DecidableEq

/-- The context object passed to the comment content parser, embedded as its
ordered property list. -/
abbrev Ctx := List JsProp

/-- The keys visible to enumeration/serialization of an object: keys of its
enumerable properties only. -/
def enumKeys (ctx : Ctx) : List String :=
  (ctx.filter (fun p => p.enumerable)).map (fun p => p.key)

/-- A comment record, as returned by the external content parser and stored
by `_addComment`: the content markers this engine inspects (`hideconstructor`,
`lends`), an opaque payload, the context fields the parser merged in, and the
mutable `constructorComment` link (a heap index, set only by the merge
rule). -/
structure CommentRec where
  hideconstructor : Bool
  lends : Bool
  description : String
  context : Ctx
  constructorComment : Option Nat
deriving DecidableEq

/-- The module-deps data chunk for one source file: its path, its source text,
and the upstream traversal-pass sort-key prefix (`data.sortKey`). -/
structure SourceData where
  file : String
  source : String
  sortKey : String
deriving DecidableEq

/-- The configuration surface this engine reads: `config.documentExported`. -/
structure DocumentationConfig where
  documentExported : Bool
deriving DecidableEq

/-- The external doc-comment content parser `parse(commentValue, commentLoc,
context)`, a black box producing the comment record. -/
abbrev ParseFn := String → Loc → Ctx → CommentRec

/-- The external resolution step `findTarget` from `./infer/finders`: resolves
a path to its true documentation target, or `null`. -/
abbrev FindTarget := NodePath → Option NodePath

/-- The mutable state threaded through one `parseJavaScript` run: the
`visited` set of comment keys, the `commentsByNode` association map (node to
comment heap index, in insertion order), the heap of allocated comment
records, the number of content-parser invocations, and the `debuglog` line
buffer. -/
structure St where
  visited : List String
  commentsByNode : List (Node × Nat)
  heap : List CommentRec
  parseCalls : Nat
  log : List String
deriving DecidableEq

/-- `Map.prototype.get`: the value stored for a node key, if any. -/
def mapGet (m : List (Node × Nat)) (k : Node) : Option Nat :=
  match m with
  | [] => none
  | (k', v') :: rest => if k' = k then some v' else mapGet rest k

/-- `Map.prototype.set`: replace the binding of an existing key in place, else
append a new binding. -/
def mapSet (m : List (Node × Nat)) (k : Node) (v : Nat) : List (Node × Nat) :=
  match m with
  | [] => [(k, v)]
  | (k', v') :: rest => if k' = k then (k, v) :: rest else (k', v') :: mapSet rest k v

/-- The single digit character of `d % 10` in JavaScript decimal notation. -/
def digitToChar (d : Nat) : Char :=
  match d with
  | 0 => '0'
  | 1 => '1'
  | 2 => '2'
  | 3 => '3'
  | 4 => '4'
  | 5 => '5'
  | 6 => '6'
  | 7 => '7'
  | 8 => '8'
  | _ => '9'

/-- Little-endian decimal digits of `n`, with explicit structural fuel so that
the definition evaluates by kernel reduction. -/
def decDigitsCore : Nat → Nat → List Nat
  | 0, _ => []
  | fuel + 1, n => if n = 0 then [] else n % 10 :: decDigitsCore fuel (n / 10)

/-- Little-endian decimal digits of `n` (empty for `0`). -/
def decDigitsLE (n : Nat) : List Nat := decDigitsCore n n

/-- JavaScript `Number.prototype.toString()` on a non-negative integer:
its decimal notation, `"0"` for zero. -/
def numToString (n : Nat) : String :=
  if n = 0 then "0" else ⟨(decDigitsLE n).reverse.map digitToChar⟩

/-- The `while (str.length < width)` loop of `leftPad`, with structural fuel
so that the definition evaluates by kernel reduction; each pass grows the
string by one character, so `width` passes always suffice. -/
def leftPadCore : Nat → String → Nat → String
  | 0, str, _ => str
  | fuel + 1, str, width =>
    if str.length < width then leftPadCore fuel ("0" ++ str) width else str

/-- `leftPad(str, width)` from the source: prepend `'0'` until the string is
at least `width` characters wide. -/
def leftPad (str : String) (width : Nat) : String :=
  leftPadCore width str width

/-- JavaScript `String.prototype.substring(a, b)`: clamp both indices to the
string length, swap them if out of order, and take the characters between. -/
def jsSubstring (s : String) (a b : Nat) : String :=
  let a' := min a s.length
  let b' := min b s.length
  ⟨(s.data.drop (min a' b')).take (max a' b' - min a' b')⟩

/-- The visited-set key `data.file + ':' + commentLoc.start.line + ':' +
commentLoc.start.column` built at the top of `_addComment`. -/
def visitedKey (data : SourceData) (commentLoc : Loc) : String :=
  data.file ++ ":" ++ numToString commentLoc.start.line ++ ":" ++
    numToString commentLoc.start.column

/-- The sort key `data.sortKey + ' ' + leftPad(nodeLoc.start.line, 8)` built
by `_addComment` for each first-sight comment. -/
def mkSortKey (baseKey : String) (line : Nat) : String :=
  baseKey ++ " " ++ leftPad (numToString line) 8

/-- The diagnostic line `debuglog` receives for an explicitly documented,
non-hidden constructor. -/
def ctorDiagnostic : String :=
  "A constructor was documented explicitly: document along with the class instead"

/-- The context object built by `_addComment` on first sight of a comment:
the enumerable `loc`, `file` and `sortKey` properties; when `includeContext`
is set, additionally the non-enumerable `ast` handle and, if the path has a
parent node, the enumerable `code` property holding the verbatim source text
between the parent node's offsets. -/
def buildContext (data : SourceData) (path : NodePath) (nodeLoc : Loc)
    (includeContext : Bool) : Ctx :=
  let base : Ctx :=
    [ { key := "loc", enumerable := true, value := .loc nodeLoc },
      { key := "file", enumerable := true, value := .str data.file },
      { key := "sortKey", enumerable := true,
        value := .str (mkSortKey data.sortKey nodeLoc.start.line) } ]
  if includeContext then
    let withAst := base ++ [{ key := "ast", enumerable := false, value := .path path }]
    match path.parentPath with
    | some parentPath =>
      withAst ++
        [ { key := "code", enumerable := true,
            value := .str (jsSubstring data.source parentPath.node.start
              parentPath.node.stop) } ]
    | none => withAst
  else base

/-- `_addComment(visited, commentsByNode, data, commentValue, commentLoc,
path, nodeLoc, includeContext)`: skip an already-visited comment key; else
mark it visited, build the context, parse the comment, store it under its
resolved target node when context is captured, and apply the constructor-merge
rule. Returns the updated state with the produced comment's heap index, or
`none` when the comment is skipped, merged, or suppressed. -/
def _addComment (parse : ParseFn) (findTarget : FindTarget) (st : St)
    (data : SourceData) (commentValue : String) (commentLoc : Loc)
    (path : NodePath) (nodeLoc : Loc) (includeContext : Bool) : St × Option Nat :=
  let key := visitedKey data commentLoc
  if key ∈ st.visited then (st, none)
  else
    let context := buildContext data path nodeLoc includeContext
    let comment := parse commentValue commentLoc context
    let commentId := st.heap.length
    let st1 : St :=
      { st with visited := key :: st.visited, heap := st.heap ++ [comment],
                parseCalls := st.parseCalls + 1 }
    if includeContext then
      let target := ((findTarget path).getD path).node
      let st2 := { st1 with commentsByNode := mapSet st1.commentsByNode target commentId }
      if path.node.type = "ClassMethod" ∧ path.node.kind = "constructor" then
        let st3 :=
          if comment.hideconstructor then st2
          else { st2 with log := st2.log ++ [ctorDiagnostic] }
        let parentComment :=
          match path.grandparentNode with
          | some gp => mapGet st3.commentsByNode gp
          | none => none
        match parentComment with
        | some parentId =>
          let heap' :=
            match st3.heap[parentId]? with
            | some parentRec =>
              st3.heap.set parentId { parentRec with constructorComment := some commentId }
            | none => st3.heap
          ({ st3 with heap := heap' }, none)
        | none =>
          if comment.hideconstructor then (st3, none) else (st3, some commentId)
      else (st2, some commentId)
    else (st1, some commentId)

/-- One invocation a traversal strategy makes of the `addComment` callback:
`(commentValue, commentLoc, path, nodeLoc)`. -/
structure CallArgs where
  commentValue : String
  commentLoc : Loc
  path : NodePath
  nodeLoc : Loc
deriving DecidableEq

/-- Modelled from the spec: the syntax tree produced by `parseToAst`
(`./parse_to_ast`, not under `src/`), abstracted by the comment-callback
invocations each traversal strategy derives from it — the three
`walkComments` categories (leading / inner / trailing) and the
`walkExported` category. -/
structure Ast where
  leadingCalls : List CallArgs
  innerCalls : List CallArgs
  trailingCalls : List CallArgs
  exportedCalls : List CallArgs
deriving DecidableEq

/-- Modelled from the spec: a traversal strategy (`walkComments` bound to one
comment category with its capture flag, or `walkExported`; both live outside
`src/`). It invokes the callback once per discovered comment, in traversal
order, collecting each call's result. -/
def walkStrategy (parse : ParseFn) (findTarget : FindTarget)
    (includeContext : Bool) (calls : List CallArgs) (data : SourceData)
    (st : St) : St × List (Option Nat) :=
  match calls with
  | [] => (st, [])
  | c :: rest =>
    let r := _addComment parse findTarget st data c.commentValue c.commentLoc
      c.path c.nodeLoc includeContext
    let rs := walkStrategy parse findTarget includeContext rest data r.1
    (rs.1, r.2 :: rs.2)

/-- The fresh per-file state: `new Set()`, `new Map()`, no allocated comment
records, no parser invocations, empty debug log. -/
def freshState : St :=
  { visited := [], commentsByNode := [], heap := [], parseCalls := 0, log := [] }

/-- Whether the comment record at heap index `i` carries a truthy `lends`
marker. -/
def recLends (heap : List CommentRec) (i : Nat) : Bool :=
  match heap[i]? with
  | some r => r.lends
  | none => false

/-- `parseJavaScript(data, config)`: create a fresh visited set and
association map, choose the strategy list from `config.documentExported`
(`[walkExported]` versus `walkComments` bound with `('leadingComments',
true)`, `('innerComments', false)`, `('trailingComments', false)`), run the
strategies in order against the tree, flatten their results, and keep the
produced comments that do not carry a `lends` marker. Returns the final state
together with the heap indices of the returned comment records. -/
def parseJavaScript (parse : ParseFn) (findTarget : FindTarget)
    (data : SourceData) (config : DocumentationConfig) (ast : Ast) :
    St × List Nat :=
  let run :=
    if config.documentExported then
      walkStrategy parse findTarget true ast.exportedCalls data freshState
    else
      let r1 := walkStrategy parse findTarget true ast.leadingCalls data freshState
      let r2 := walkStrategy parse findTarget false ast.innerCalls data r1.1
      let r3 := walkStrategy parse findTarget false ast.trailingCalls data r2.1
      (r3.1, r1.2 ++ r2.2 ++ r3.2)
  (run.1, run.2.filterMap (fun r =>
    match r with
    | some i => if recLends run.1.heap i then none else some i
    | none => none))

/-- One raw `addComment` invocation with every per-call argument, used to
state properties that quantify over arbitrary intervening calls. -/
structure FullCall where
  data : SourceData
  commentValue : String
  commentLoc : Loc
  path : NodePath
  nodeLoc : Loc
  includeContext : Bool

/-- Run a sequence of `_addComment` calls, threading the state. -/
def runCalls (parse : ParseFn) (findTarget : FindTarget) (st : St) :
    List FullCall → St
  | [] => st
  | c :: rest =>
    runCalls parse findTarget
      (_addComment parse findTarget st c.data c.commentValue c.commentLoc
        c.path c.nodeLoc c.includeContext).1 rest

/-- Modelled from the spec: the per-file driver (module-deps plumbing outside
`src/`) processes each source file by one independent `parseJavaScript`
call. -/
def processFiles (parse : ParseFn) (findTarget : FindTarget)
    (jobs : List (SourceData × DocumentationConfig × Ast)) :
    List (St × List Nat) :=
  jobs.map (fun j => parseJavaScript parse findTarget j.1 j.2.1 j.2.2)

/-- The numeric value of a big-endian decimal digit list. -/
def bigEndVal (l : List Nat) : Nat := l.foldl (fun a d => 10 * a + d) 0

/-- The digit list of a line number after 8-wide zero padding. -/
def padDigits (n : Nat) : List Nat :=
  List.replicate (8 - (Nat.digits 10 n).length) 0 ++ (Nat.digits 10 n).reverse

/-! ### Concrete instances used by witnesses and counterexamples -/

/-- A concrete content parser: marks `hideconstructor` on raw text "hide",
`lends` on raw text "lends", and records the context it was given. -/
def parseC : ParseFn := fun cv _ ctx =>
  { hideconstructor := cv = "hide", lends := cv = "lends", description := cv,
    context := ctx, constructorComment := none }

/-- A concrete target resolution that never resolves away from the node. -/
def ftNone : FindTarget := fun _ => none

def classNode : Node :=
  { id := 1, type := "ClassDeclaration", kind := "", start := 0, stop := 30 }

def bodyNode : Node :=
  { id := 2, type := "ClassBody", kind := "", start := 10, stop := 30 }

def ctorNode : Node :=
  { id := 3, type := "ClassMethod", kind := "constructor", start := 12, stop := 28 }

def classPath : NodePath := .root classNode

def ctorPath : NodePath := .child ctorNode (.child bodyNode (.root classNode))

def locAt (l c : Nat) : Loc :=
  { start := { line := l, column := c }, stop := { line := l, column := c + 1 } }

def dataC : SourceData :=
  { file := "a.js", source := "class Foo { constructor() {} }", sortKey := "k" }

/-- The state after documenting the class `Foo` with context capture on. -/
def stClass : St :=
  (_addComment parseC ftNone freshState dataC "classdoc" (locAt 1 0) classPath
    (locAt 1 0) true).1

/-- A tree whose leading pass discovers one plain comment and whose inner pass
discovers one `lends` comment. -/
def astC : Ast :=
  { leadingCalls := [⟨"classdoc", locAt 1 0, classPath, locAt 1 0⟩],
    innerCalls := [⟨"lends", locAt 4 0, classPath, locAt 4 0⟩],
    trailingCalls := [], exportedCalls := [] }

/-- A tree whose leading pass documents a node on line 9 and whose inner pass
then documents a node on line 2, so the flattened output is not sorted by
sort key. -/
def astSort : Ast :=
  { leadingCalls := [⟨"lead", locAt 1 0, classPath, locAt 9 0⟩],
    innerCalls := [⟨"inner", locAt 4 0, classPath, locAt 2 0⟩],
    trailingCalls := [], exportedCalls := [] }

/-- Two trees agreeing on their exported-symbols pass but not elsewhere. -/
def astE : Ast :=
  { leadingCalls := [⟨"x", locAt 1 0, classPath, locAt 1 0⟩],
    innerCalls := [], trailingCalls := [],
    exportedCalls := [⟨"e", locAt 2 0, classPath, locAt 2 0⟩] }

def astE' : Ast :=
  { leadingCalls := [], innerCalls := [], trailingCalls := [],
    exportedCalls := [⟨"e", locAt 2 0, classPath, locAt 2 0⟩] }

/-- The strategy results kept by the orchestrator's filter: produced comments
whose record does not carry a `lends` marker. -/
def dropLends (heap : List CommentRec) (rs : List (Option Nat)) : List Nat :=
  rs.filterMap (fun r => match r with
    | some i => if recLends heap i then none else some i
    | none => none)

/-- The `sortKey` context property of the comment record at heap index `i`. -/
def recSortKey (heap : List CommentRec) (i : Nat) : Option JsValue :=
  match heap[i]? with
  | some r =>
    match r.context.filter (fun pr => pr.key = "sortKey") with
    | pr :: _ => some pr.value
    | [] => none
  | none => none

/-! ### Decimal notation and `leftPad`: auxiliary facts -/

theorem decDigitsCore_eq_digits : ∀ (fuel n : Nat), n ≤ fuel →
    decDigitsCore fuel n = Nat.digits 10 n := by
  intro fuel
  induction fuel with
  | zero =>
    intro n h
    interval_cases n
    simp [decDigitsCore]
  | succ fuel ih =>
    intro n h
    by_cases hn : n = 0
    · simp [decDigitsCore, hn]
    · have h10 : (1 : Nat) < 10 := by norm_num
      rw [Nat.digits_def' h10 (Nat.pos_of_ne_zero hn)]
      have hdiv : n / 10 ≤ fuel := by
        have := Nat.div_lt_self (Nat.pos_of_ne_zero hn) (by norm_num : (1:Nat) < 10)
        omega
      simp [decDigitsCore, hn, ih (n / 10) hdiv]

theorem decDigitsLE_eq_digits (n : Nat) : decDigitsLE n = Nat.digits 10 n :=
  decDigitsCore_eq_digits n n le_rfl

theorem foldl_decimal (l : List Nat) : ∀ a : Nat,
    l.foldl (fun a d => 10 * a + d) a = a * 10 ^ l.length + bigEndVal l := by
  induction l with
  | nil => intro a; simp [bigEndVal]
  | cons d l ih =>
    intro a
    have hd : bigEndVal (d :: l) = d * 10 ^ l.length + bigEndVal l := by
      show List.foldl (fun a d => 10 * a + d) (10 * 0 + d) l = _
      rw [show 10 * 0 + d = d by omega, ih d]
    rw [List.foldl_cons, ih (10 * a + d), hd]
    simp [List.length_cons, pow_succ]
    ring

theorem bigEndVal_cons (d : Nat) (l : List Nat) :
    bigEndVal (d :: l) = d * 10 ^ l.length + bigEndVal l := by
  show List.foldl (fun a d => 10 * a + d) (10 * 0 + d) l = _
  rw [show 10 * 0 + d = d by omega, foldl_decimal l d]

theorem bigEndVal_lt_pow (l : List Nat) (h : ∀ d ∈ l, d < 10) :
    bigEndVal l < 10 ^ l.length := by
  induction l with
  | nil => simp [bigEndVal]
  | cons d l ih =>
    have hd : d < 10 := h d (List.mem_cons_self d l)
    have hl : bigEndVal l < 10 ^ l.length := ih (fun x hx => h x (List.mem_cons_of_mem d hx))
    rw [bigEndVal_cons]
    have hstep : (d + 1) * 10 ^ l.length ≤ 10 * 10 ^ l.length :=
      Nat.mul_le_mul_right _ (by omega)
    calc d * 10 ^ l.length + bigEndVal l < d * 10 ^ l.length + 10 ^ l.length := by omega
    _ = (d + 1) * 10 ^ l.length := by ring
    _ ≤ 10 * 10 ^ l.length := hstep
    _ = 10 ^ (d :: l).length := by rw [List.length_cons]; ring

theorem bigEndVal_replicate_zero (k : Nat) (l : List Nat) :
    bigEndVal (List.replicate k 0 ++ l) = bigEndVal l := by
  induction k with
  | zero => simp
  | succ k ih =>
    rw [List.replicate_succ, List.cons_append]
    show List.foldl (fun a d => 10 * a + d) (10 * 0 + 0) _ = _
    rw [show 10 * 0 + 0 = 0 by omega]
    exact ih

theorem bigEndVal_reverse_ofDigits : ∀ l : List Nat,
    bigEndVal l.reverse = Nat.ofDigits 10 l := by
  intro l
  induction l with
  | nil => simp [bigEndVal, Nat.ofDigits_nil]
  | cons d l ih =>
    rw [List.reverse_cons, Nat.ofDigits_cons]
    show List.foldl _ 0 (l.reverse ++ [d]) = _
    rw [List.foldl_append]
    show 10 * bigEndVal l.reverse + d = _
    rw [ih]
    ring

theorem bigEndVal_reverse_digits (n : Nat) :
    bigEndVal ((Nat.digits 10 n).reverse) = n := by
  rw [bigEndVal_reverse_ofDigits, Nat.ofDigits_digits]

theorem digitToChar_lt_digitToChar :
    ∀ d < 10, ∀ e < 10, d < e → digitToChar d < digitToChar e := by decide

theorem list_lt_of_bigEndVal_lt : ∀ (a b : List Nat), a.length = b.length →
    (∀ d ∈ a, d < 10) → (∀ d ∈ b, d < 10) → bigEndVal a < bigEndVal b →
    List.Lex (· < ·) (a.map digitToChar) (b.map digitToChar) := by
  intro a
  induction a with
  | nil =>
    intro b hlen _ _ hval
    have hb0 : b = [] := by
      cases b with
      | nil => rfl
      | cons x xs => simp at hlen
    subst hb0
    simp [bigEndVal] at hval
  | cons d1 a ih =>
    intro b hlen ha hb hval
    cases b with
    | nil => simp at hlen
    | cons d2 b =>
      simp only [List.length_cons, Nat.succ_inj] at hlen
      have hd1 : d1 < 10 := ha d1 (List.mem_cons_self _ _)
      have hd2 : d2 < 10 := hb d2 (List.mem_cons_self _ _)
      rcases Nat.lt_trichotomy d1 d2 with h | h | h
      · exact List.Lex.rel (digitToChar_lt_digitToChar d1 hd1 d2 hd2 h)
      · subst h
        have hva : bigEndVal a < bigEndVal b := by
          rw [bigEndVal_cons, bigEndVal_cons, hlen] at hval
          omega
        exact List.Lex.cons
          (ih b hlen (fun x hx => ha x (List.mem_cons_of_mem _ hx))
            (fun x hx => hb x (List.mem_cons_of_mem _ hx)) hva)
      · exfalso
        have hbb : bigEndVal b < 10 ^ b.length :=
          bigEndVal_lt_pow b (fun x hx => hb x (List.mem_cons_of_mem _ hx))
        have h1 : bigEndVal (d1 :: a) = d1 * 10 ^ a.length + bigEndVal a := bigEndVal_cons _ _
        have h2 : bigEndVal (d2 :: b) = d2 * 10 ^ b.length + bigEndVal b := bigEndVal_cons _ _
        rw [h1, h2, hlen] at hval
        have hmul : (d2 + 1) * 10 ^ b.length ≤ d1 * 10 ^ b.length :=
          Nat.mul_le_mul_right _ (by omega)
        have hsplit : (d2 + 1) * 10 ^ b.length = d2 * 10 ^ b.length + 10 ^ b.length := by ring
        omega

theorem list_lt_append_left (p : List Char) :
    ∀ a b : List Char, List.Lex (· < ·) a b →
      List.Lex (· < ·) (p ++ a) (p ++ b) := by
  induction p with
  | nil => intro a b h; simpa using h
  | cons c p ih =>
    intro a b h
    exact List.Lex.cons (ih a b h)

theorem leftPadCore_eq : ∀ (fuel : Nat) (str : String) (width : Nat),
    width - str.length ≤ fuel →
    leftPadCore fuel str width = ⟨List.replicate (width - str.length) '0' ++ str.data⟩ := by
  intro fuel
  induction fuel with
  | zero =>
    intro str width h
    have h0 : width - str.length = 0 := by omega
    rw [leftPadCore, h0]
    simp
  | succ fuel ih =>
    intro str width h
    rw [leftPadCore]
    by_cases hlt : str.length < width
    · rw [if_pos hlt]
      have hlen : ("0" ++ str).length = 1 + str.length := by
        rw [String.length_append]; rfl
      have h2 : width - ("0" ++ str).length ≤ fuel := by omega
      rw [ih _ _ h2, hlen]
      have hdata : ("0" ++ str).data = '0' :: str.data := rfl
      rw [hdata]
      have hrep : width - str.length = (width - (1 + str.length)) + 1 := by omega
      rw [hrep, List.replicate_succ']
      simp
    · rw [if_neg hlt]
      have h0 : width - str.length = 0 := by omega
      rw [h0]
      simp

theorem leftPad_eq (str : String) (width : Nat) :
    leftPad str width = ⟨List.replicate (width - str.length) '0' ++ str.data⟩ :=
  leftPadCore_eq width str width (Nat.sub_le _ _)

theorem digits_len_le_eight (n : Nat) (h : n ≤ 99999999) :
    (Nat.digits 10 n).length ≤ 8 := by
  by_cases hn : n = 0
  · simp [hn]
  · rw [Nat.digits_len 10 n (by norm_num) hn]
    have hlt : n < 10 ^ 8 := by omega
    have hlog := (Nat.lt_pow_iff_log_lt (by norm_num : (1:Nat) < 10) hn).mp hlt
    omega

theorem padDigits_length (n : Nat) (h : n ≤ 99999999) : (padDigits n).length = 8 := by
  have := digits_len_le_eight n h
  simp [padDigits]
  omega

theorem padDigits_val (n : Nat) : bigEndVal (padDigits n) = n := by
  rw [padDigits, bigEndVal_replicate_zero, bigEndVal_reverse_digits]

theorem padDigits_lt_ten (n : Nat) : ∀ d ∈ padDigits n, d < 10 := by
  intro d hd
  rcases List.mem_append.mp hd with h | h
  · have := List.eq_of_mem_replicate h
    omega
  · exact Nat.digits_lt_base (by norm_num) (List.mem_reverse.mp h)

theorem numToString_data (n : Nat) (hn : n ≠ 0) :
    (numToString n).data = ((Nat.digits 10 n).reverse).map digitToChar := by
  rw [numToString, if_neg hn, decDigitsLE_eq_digits]

theorem padKey_data (n : Nat) (hn : n ≠ 0) :
    (leftPad (numToString n) 8).data = (padDigits n).map digitToChar := by
  rw [leftPad_eq, numToString_data n hn]
  show List.replicate (8 - (numToString n).length) '0' ++ _ = _
  have hlen : (numToString n).length = (Nat.digits 10 n).length := by
    show (numToString n).data.length = _
    rw [numToString_data n hn]
    simp
  rw [hlen, padDigits, List.map_append, List.map_replicate]
  rfl

theorem mkSortKey_lt_mkSortKey (base : String) (l1 l2 : Nat) (h1 : 1 ≤ l1)
    (h12 : l1 < l2) (h2 : l2 ≤ 99999999) :
    mkSortKey base l1 < mkSortKey base l2 := by
  rw [String.lt_iff_toList_lt]
  show ((base ++ " ") ++ leftPad (numToString l1) 8).data <
    ((base ++ " ") ++ leftPad (numToString l2) 8).data
  simp only [String.data_append]
  refine list_lt_append_left (base.data ++ [' ']) _ _ ?_
  rw [padKey_data l1 (by omega), padKey_data l2 (by omega)]
  refine list_lt_of_bigEndVal_lt _ _ ?_ (padDigits_lt_ten l1) (padDigits_lt_ten l2) ?_
  · rw [padDigits_length l1 (by omega), padDigits_length l2 h2]
  · rw [padDigits_val, padDigits_val]
    exact h12

/-! ### Structural facts about `_addComment` -/

theorem addComment_visited_hit (parse : ParseFn) (ft : FindTarget) (st : St)
    (data : SourceData) (cv : String) (cl : Loc) (p : NodePath) (nl : Loc)
    (flag : Bool) (h : visitedKey data cl ∈ st.visited) :
    _addComment parse ft st data cv cl p nl flag = (st, none) := by
  unfold _addComment
  simp [h]

theorem addComment_fresh_visited (parse : ParseFn) (ft : FindTarget) (st : St)
    (data : SourceData) (cv : String) (cl : Loc) (p : NodePath) (nl : Loc)
    (flag : Bool) (h : visitedKey data cl ∉ st.visited) :
    (_addComment parse ft st data cv cl p nl flag).1.visited =
      visitedKey data cl :: st.visited := by
  unfold _addComment
  rw [if_neg h]
  repeat (first | rfl | split | dsimp only)

theorem addComment_visited_mono (parse : ParseFn) (ft : FindTarget) (st : St)
    (data : SourceData) (cv : String) (cl : Loc) (p : NodePath) (nl : Loc)
    (flag : Bool) :
    ∀ k ∈ st.visited, k ∈ (_addComment parse ft st data cv cl p nl flag).1.visited := by
  intro k hk
  by_cases h : visitedKey data cl ∈ st.visited
  · rw [addComment_visited_hit parse ft st data cv cl p nl flag h]
    exact hk
  · rw [addComment_fresh_visited parse ft st data cv cl p nl flag h]
    exact List.mem_cons_of_mem _ hk

theorem runCalls_visited_mono (parse : ParseFn) (ft : FindTarget) :
    ∀ (calls : List FullCall) (st : St) (k : String), k ∈ st.visited →
      k ∈ (runCalls parse ft st calls).visited := by
  intro calls
  induction calls with
  | nil => intro st k hk; exact hk
  | cons c rest ih =>
    intro st k hk
    exact ih _ k (addComment_visited_mono parse ft st c.data c.commentValue
      c.commentLoc c.path c.nodeLoc c.includeContext k hk)

theorem addComment_noContext (parse : ParseFn) (ft : FindTarget) (st : St)
    (data : SourceData) (cv : String) (cl : Loc) (p : NodePath) (nl : Loc)
    (h : visitedKey data cl ∉ st.visited) :
    _addComment parse ft st data cv cl p nl false =
      ({ st with visited := visitedKey data cl :: st.visited,
                 heap := st.heap ++ [parse cv cl (buildContext data p nl false)],
                 parseCalls := st.parseCalls + 1 }, some st.heap.length) := by
  unfold _addComment
  rw [if_neg h]
  rfl

theorem mapGet_mapSet_same (m : List (Node × Nat)) (k : Node) (v : Nat) :
    mapGet (mapSet m k v) k = some v := by
  induction m with
  | nil => simp [mapGet, mapSet]
  | cons kv rest ih =>
    obtain ⟨k', v'⟩ := kv
    by_cases h : k' = k
    · simp [mapGet, mapSet, h]
    · simp [mapGet, mapSet, h, ih]

theorem mapGet_mapSet_other (m : List (Node × Nat)) (k t : Node) (v : Nat)
    (h : t ≠ k) : mapGet (mapSet m t v) k = mapGet m k := by
  induction m with
  | nil => simp [mapGet, mapSet, h]
  | cons kv rest ih =>
    obtain ⟨k', v'⟩ := kv
    by_cases h' : k' = t
    · subst h'
      simp [mapGet, mapSet, h]
    · by_cases h'' : k' = k
      · simp [mapGet, mapSet, h', h'', Ne.symm h]
      · simp [mapGet, mapSet, h', h'', ih]

theorem addComment_ctor_merge (parse : ParseFn) (ft : FindTarget) (st : St)
    (data : SourceData) (cv : String) (cl : Loc) (p : NodePath) (nl : Loc)
    (gp : Node) (parentId : Nat)
    (hfresh : visitedKey data cl ∉ st.visited)
    (hctor : p.node.type = "ClassMethod" ∧ p.node.kind = "constructor")
    (hgp : p.grandparentNode = some gp)
    (htarget : ((ft p).getD p).node ≠ gp)
    (hparent : mapGet st.commentsByNode gp = some parentId)
    (hvalid : parentId < st.heap.length) :
    (_addComment parse ft st data cv cl p nl true).2 = none ∧
    ∃ parentRec, st.heap[parentId]? = some parentRec ∧
      ((_addComment parse ft st data cv cl p nl true).1.heap)[parentId]? =
        some { parentRec with constructorComment := some st.heap.length } ∧
      ((_addComment parse ft st data cv cl p nl true).1.heap)[st.heap.length]? =
        some (parse cv cl (buildContext data p nl true)) := by
  have hlookup : mapGet (mapSet st.commentsByNode (((ft p).getD p).node) st.heap.length) gp
      = some parentId := by
    rw [mapGet_mapSet_other _ _ _ _ htarget, hparent]
  obtain ⟨parentRec, hpr⟩ : ∃ r, st.heap[parentId]? = some r :=
    ⟨st.heap[parentId], (List.getElem?_eq_getElem hvalid)⟩
  have hne : parentId ≠ st.heap.length := Nat.ne_of_lt hvalid
  unfold _addComment
  rw [if_neg hfresh]
  dsimp only
  simp only [eq_self_iff_true, if_true]
  rw [if_pos hctor]
  by_cases hhc : (parse cv cl (buildContext data p nl true)).hideconstructor = true
  all_goals first
  | rw [if_pos hhc]
  | rw [if_neg hhc]
  all_goals
    rw [hgp]
    dsimp only
    rw [hlookup]
    dsimp only
    rw [List.getElem?_append_left hvalid, hpr]
    dsimp only
    refine ⟨rfl, parentRec, rfl, ?_, ?_⟩
    · rw [List.getElem?_set_self (by simp only [List.length_append,
        List.length_cons, List.length_nil]; omega)]
    · rw [List.getElem?_set_ne hne, List.getElem?_concat_length]

theorem addComment_ctor_noparent (parse : ParseFn) (ft : FindTarget) (st : St)
    (data : SourceData) (cv : String) (cl : Loc) (p : NodePath) (nl : Loc)
    (gp : Node)
    (hfresh : visitedKey data cl ∉ st.visited)
    (hctor : p.node.type = "ClassMethod" ∧ p.node.kind = "constructor")
    (hgp : p.grandparentNode = some gp)
    (htarget : ((ft p).getD p).node ≠ gp)
    (hparent : mapGet st.commentsByNode gp = none) :
    (_addComment parse ft st data cv cl p nl true).2 =
      (if (parse cv cl (buildContext data p nl true)).hideconstructor then none
       else some st.heap.length) := by
  have hlookup : mapGet (mapSet st.commentsByNode (((ft p).getD p).node) st.heap.length) gp
      = none := by
    rw [mapGet_mapSet_other _ _ _ _ htarget, hparent]
  unfold _addComment
  rw [if_neg hfresh]
  dsimp only
  simp only [eq_self_iff_true, if_true]
  rw [if_pos hctor]
  by_cases hhc : (parse cv cl (buildContext data p nl true)).hideconstructor = true
  all_goals first
  | rw [if_pos hhc]
  | rw [if_neg hhc]
  all_goals
    rw [hgp]
    dsimp only
    rw [hlookup]
    dsimp only
    simp [hhc]

theorem addComment_context_nonctor (parse : ParseFn) (ft : FindTarget) (st : St)
    (data : SourceData) (cv : String) (cl : Loc) (p : NodePath) (nl : Loc)
    (hfresh : visitedKey data cl ∉ st.visited)
    (hnc : ¬(p.node.type = "ClassMethod" ∧ p.node.kind = "constructor")) :
    _addComment parse ft st data cv cl p nl true =
      ({ visited := visitedKey data cl :: st.visited,
         commentsByNode := mapSet st.commentsByNode (((ft p).getD p).node) st.heap.length,
         heap := st.heap ++ [parse cv cl (buildContext data p nl true)],
         parseCalls := st.parseCalls + 1,
         log := st.log }, some st.heap.length) := by
  unfold _addComment
  rw [if_neg hfresh]
  dsimp only
  simp only [eq_self_iff_true, if_true]
  rw [if_neg hnc]

theorem addComment_new_record (parse : ParseFn) (ft : FindTarget) (st : St)
    (data : SourceData) (cv : String) (cl : Loc) (p : NodePath) (nl : Loc)
    (flag : Bool) (hfresh : visitedKey data cl ∉ st.visited) :
    ∃ cc, ((_addComment parse ft st data cv cl p nl flag).1.heap)[st.heap.length]? =
      some { parse cv cl (buildContext data p nl flag) with constructorComment := cc } := by
  cases flag
  case false =>
    rw [addComment_noContext parse ft st data cv cl p nl hfresh]
    refine ⟨(parse cv cl (buildContext data p nl false)).constructorComment, ?_⟩
    dsimp only
    rw [List.getElem?_concat_length]
  case true =>
    by_cases hcr : p.node.type = "ClassMethod" ∧ p.node.kind = "constructor"
    case neg =>
      rw [addComment_context_nonctor parse ft st data cv cl p nl hfresh hcr]
      refine ⟨(parse cv cl (buildContext data p nl true)).constructorComment, ?_⟩
      dsimp only
      rw [List.getElem?_concat_length]
    case pos =>
      unfold _addComment
      rw [if_neg hfresh]
      dsimp only
      simp only [eq_self_iff_true, if_true]
      rw [if_pos hcr]
      by_cases hhc : (parse cv cl (buildContext data p nl true)).hideconstructor = true
      all_goals first
      | rw [if_pos hhc]
      | rw [if_neg hhc]
      all_goals
        dsimp only
        cases hgp : p.grandparentNode with
        | none =>
          dsimp only
          first
          | rw [if_pos hhc]
          | rw [if_neg hhc]
          refine ⟨(parse cv cl (buildContext data p nl true)).constructorComment, ?_⟩
          dsimp only
          rw [List.getElem?_concat_length]
        | some gp =>
          dsimp only
          cases hm : mapGet (mapSet st.commentsByNode (((ft p).getD p).node) st.heap.length) gp with
          | none =>
            dsimp only
            first
            | rw [if_pos hhc]
            | rw [if_neg hhc]
            refine ⟨(parse cv cl (buildContext data p nl true)).constructorComment, ?_⟩
            dsimp only
            rw [List.getElem?_concat_length]
          | some parentId =>
            dsimp only
            cases hp : (st.heap ++ [parse cv cl (buildContext data p nl true)])[parentId]? with
            | none =>
              refine ⟨(parse cv cl (buildContext data p nl true)).constructorComment, ?_⟩
              dsimp only
              rw [List.getElem?_concat_length]
            | some parentRec =>
              by_cases hpe : parentId = st.heap.length
              · subst hpe
                rw [List.getElem?_concat_length] at hp
                injection hp with hrec
                refine ⟨some st.heap.length, ?_⟩
                dsimp only
                rw [List.getElem?_set_self (by simp only [List.length_append,
                  List.length_cons, List.length_nil]; omega)]
                rw [← hrec]
              · refine ⟨(parse cv cl (buildContext data p nl true)).constructorComment, ?_⟩
                dsimp only
                rw [List.getElem?_set_ne hpe, List.getElem?_concat_length]

/-! ### Properties of the built context -/

theorem buildContext_ast_mem (data : SourceData) (p : NodePath) (nl : Loc) :
    ({ key := "ast", enumerable := false, value := JsValue.path p } : JsProp) ∈
      buildContext data p nl true := by
  unfold buildContext
  cases p.parentPath <;> simp

theorem buildContext_ast_not_enum (data : SourceData) (p : NodePath) (nl : Loc) :
    "ast" ∉ enumKeys (buildContext data p nl true) := by
  unfold buildContext enumKeys
  cases p.parentPath <;> simp

theorem buildContext_code_parent (data : SourceData) (p : NodePath) (nl : Loc)
    (pp : NodePath) (hpp : p.parentPath = some pp) :
    ({ key := "code", enumerable := true,
       value := JsValue.str (jsSubstring data.source pp.node.start pp.node.stop) } : JsProp) ∈
      buildContext data p nl true := by
  unfold buildContext
  rw [hpp]
  simp

theorem buildContext_no_code_root (data : SourceData) (p : NodePath) (nl : Loc)
    (hpp : p.parentPath = none) :
    ∀ pr ∈ buildContext data p nl true, pr.key ≠ "code" := by
  unfold buildContext
  rw [hpp]
  intro pr hpr
  simp at hpr
  rcases hpr with h | h | h | h <;> subst h <;> simp

theorem buildContext_false_keys (data : SourceData) (p : NodePath) (nl : Loc) :
    ∀ pr ∈ buildContext data p nl false, pr.key ≠ "ast" ∧ pr.key ≠ "code" := by
  unfold buildContext
  intro pr hpr
  simp at hpr
  rcases hpr with h | h | h <;> subst h <;> exact ⟨by simp, by simp⟩

/-! ### Walk-level invariants for strategies bound without context capture -/

theorem walkStrategy_false_commentsByNode (parse : ParseFn) (ft : FindTarget)
    (data : SourceData) :
    ∀ (calls : List CallArgs) (st : St),
      (walkStrategy parse ft false calls data st).1.commentsByNode = st.commentsByNode := by
  intro calls
  induction calls with
  | nil => intro st; rfl
  | cons c rest ih =>
    intro st
    show (walkStrategy parse ft false rest data _).1.commentsByNode = _
    rw [ih]
    by_cases h : visitedKey data c.commentLoc ∈ st.visited
    · rw [addComment_visited_hit parse ft st data c.commentValue c.commentLoc
        c.path c.nodeLoc false h]
    · rw [addComment_noContext parse ft st data c.commentValue c.commentLoc
        c.path c.nodeLoc h]

theorem walkStrategy_false_heap_stable (parse : ParseFn) (ft : FindTarget)
    (data : SourceData) :
    ∀ (calls : List CallArgs) (st : St) (i : Nat), i < st.heap.length →
      ((walkStrategy parse ft false calls data st).1.heap)[i]? = st.heap[i]? := by
  intro calls
  induction calls with
  | nil => intro st i _; rfl
  | cons c rest ih =>
    intro st i hi
    show ((walkStrategy parse ft false rest data _).1.heap)[i]? = _
    by_cases h : visitedKey data c.commentLoc ∈ st.visited
    · rw [addComment_visited_hit parse ft st data c.commentValue c.commentLoc
        c.path c.nodeLoc false h]
      exact ih st i hi
    · rw [addComment_noContext parse ft st data c.commentValue c.commentLoc
        c.path c.nodeLoc h]
      rw [ih _ i (by simp; omega)]
      dsimp only
      rw [List.getElem?_append_left hi]

theorem walkStrategy_false_new_records (parse : ParseFn) (ft : FindTarget)
    (data : SourceData) :
    ∀ (calls : List CallArgs) (st : St) (i : Nat) (rec : CommentRec),
      st.heap.length ≤ i →
      ((walkStrategy parse ft false calls data st).1.heap)[i]? = some rec →
      ∃ c ∈ calls, rec = parse c.commentValue c.commentLoc
        (buildContext data c.path c.nodeLoc false) := by
  intro calls
  induction calls with
  | nil =>
    intro st i rec hle h
    rw [show (walkStrategy parse ft false [] data st).1 = st from rfl] at h
    rw [List.getElem?_eq_none hle] at h
    cases h
  | cons c rest ih =>
    intro st i rec hle h
    rw [show walkStrategy parse ft false (c :: rest) data st =
      (let r := _addComment parse ft st data c.commentValue c.commentLoc
        c.path c.nodeLoc false;
       let rs := walkStrategy parse ft false rest data r.1;
       (rs.1, r.2 :: rs.2)) from rfl] at h
    dsimp only at h
    by_cases hv : visitedKey data c.commentLoc ∈ st.visited
    · rw [addComment_visited_hit parse ft st data c.commentValue c.commentLoc
        c.path c.nodeLoc false hv] at h
      obtain ⟨c', hc', hrec⟩ := ih st i rec hle h
      exact ⟨c', List.mem_cons_of_mem _ hc', hrec⟩
    · rw [addComment_noContext parse ft st data c.commentValue c.commentLoc
        c.path c.nodeLoc hv] at h
      dsimp only at h
      by_cases hi : i < st.heap.length + 1
      · have hieq : i = st.heap.length := by omega
        subst hieq
        rw [walkStrategy_false_heap_stable parse ft data rest _ _ (by simp)] at h
        dsimp only at h
        rw [List.getElem?_concat_length] at h
        injection h with h
        exact ⟨c, List.mem_cons_self _ _, h.symm⟩
      · obtain ⟨c', hc', hrec⟩ := ih _ i rec (by simp; omega) h
        exact ⟨c', List.mem_cons_of_mem _ hc', hrec⟩

/-! ### The orchestrator's lends filter -/

theorem mem_lends_filter {heap : List CommentRec} {rs : List (Option Nat)} {i : Nat}
    (hi : i ∈ rs.filterMap (fun r => match r with
      | some j => if recLends heap j then none else some j
      | none => none)) : recLends heap i = false := by
  rcases List.mem_filterMap.mp hi with ⟨r, _, hf⟩
  cases r with
  | none => simp at hf
  | some j =>
    dsimp only at hf
    by_cases hl : recLends heap j = true
    · rw [if_pos hl] at hf
      cases hf
    · rw [if_neg hl] at hf
      injection hf with hf
      subst hf
      cases hb : recLends heap j with
      | false => rfl
      | true => exact absurd hb hl

/-! ### Claim theorems -/

/-- Claim C1, counterexample to the claim as stated: a first call of
`_addComment` on a fresh visited key can yield no comment record — here the
constructor comment of a class whose own comment is already in the
association map is merged away, so the first call already returns `none`. -/
theorem c1_counterexample :
    visitedKey dataC (locAt 3 2) ∉ stClass.visited ∧
    (_addComment parseC ftNone stClass dataC "ctordoc" (locAt 3 2) ctorPath
      (locAt 3 2) true).2 = none := by
  exact ⟨by decide, by decide⟩

/-- Claim C1, amended: on a fresh visited key, `_addComment` yields a comment
record whenever the call is not a context-captured constructor comment (where
the merge rule may suppress it), and every later call with the same visited
key — after arbitrary intervening calls — yields absent. -/
theorem c1_dedup_idempotent (parse : ParseFn) (ft : FindTarget) (st : St)
    (data : SourceData) (cv : String) (cl : Loc) (p : NodePath) (nl : Loc)
    (flag : Bool) (hfresh : visitedKey data cl ∉ st.visited) :
    (¬(flag = true ∧ p.node.type = "ClassMethod" ∧ p.node.kind = "constructor") →
      (_addComment parse ft st data cv cl p nl flag).2 = some st.heap.length) ∧
    (∀ (rest : List FullCall) (data' : SourceData) (cv' : String) (cl' : Loc)
        (p' : NodePath) (nl' : Loc) (flag' : Bool),
      visitedKey data' cl' = visitedKey data cl →
      _addComment parse ft
          (runCalls parse ft (_addComment parse ft st data cv cl p nl flag).1 rest)
          data' cv' cl' p' nl' flag' =
        (runCalls parse ft (_addComment parse ft st data cv cl p nl flag).1 rest,
          none)) := by
  constructor
  · intro hnc
    cases flag
    · rw [addComment_noContext parse ft st data cv cl p nl hfresh]
    · have hcr : ¬(p.node.type = "ClassMethod" ∧ p.node.kind = "constructor") :=
        fun hc => hnc ⟨rfl, hc.1, hc.2⟩
      rw [addComment_context_nonctor parse ft st data cv cl p nl hfresh hcr]
  · intro rest data' cv' cl' p' nl' flag' hkey
    apply addComment_visited_hit
    rw [hkey]
    apply runCalls_visited_mono
    rw [addComment_fresh_visited parse ft st data cv cl p nl flag hfresh]
    exact List.mem_cons_self _ _

/-- Claim C1 witness: a concrete fresh non-constructor call yields a record,
and the repeated call (with no intervening calls) yields absent. -/
theorem c1_dedup_idempotent_witness :
    (_addComment parseC ftNone freshState dataC "classdoc" (locAt 1 0)
      classPath (locAt 1 0) false).2 = some freshState.heap.length ∧
    _addComment parseC ftNone
        (runCalls parseC ftNone (_addComment parseC ftNone freshState dataC
          "classdoc" (locAt 1 0) classPath (locAt 1 0) false).1 [])
        dataC "classdoc" (locAt 1 0) classPath (locAt 1 0) false =
      (runCalls parseC ftNone (_addComment parseC ftNone freshState dataC
        "classdoc" (locAt 1 0) classPath (locAt 1 0) false).1 [], none) :=
  ⟨(c1_dedup_idempotent parseC ftNone freshState dataC "classdoc" (locAt 1 0)
      classPath (locAt 1 0) false (by decide)).1 (by simp),
   (c1_dedup_idempotent parseC ftNone freshState dataC "classdoc" (locAt 1 0)
      classPath (locAt 1 0) false (by decide)).2 [] dataC "classdoc" (locAt 1 0)
      classPath (locAt 1 0) false rfl⟩

/-- Claim C2: a context-captured constructor comment whose enclosing class
(the grandparent node) already has a record in the association map is never
returned standalone (`none`), and the class record's `constructorComment`
field is set to the constructor's freshly parsed comment record. -/
theorem c2_constructor_merge_present (parse : ParseFn) (ft : FindTarget)
    (st : St) (data : SourceData) (cv : String) (cl : Loc) (p : NodePath)
    (nl : Loc) (gp : Node) (parentId : Nat)
    (hfresh : visitedKey data cl ∉ st.visited)
    (hctor : p.node.type = "ClassMethod" ∧ p.node.kind = "constructor")
    (hgp : p.grandparentNode = some gp)
    (htarget : ((ft p).getD p).node ≠ gp)
    (hparent : mapGet st.commentsByNode gp = some parentId)
    (hvalid : parentId < st.heap.length) :
    (_addComment parse ft st data cv cl p nl true).2 = none ∧
    ∃ parentRec, st.heap[parentId]? = some parentRec ∧
      ((_addComment parse ft st data cv cl p nl true).1.heap)[parentId]? =
        some { parentRec with constructorComment := some st.heap.length } ∧
      ((_addComment parse ft st data cv cl p nl true).1.heap)[st.heap.length]? =
        some (parse cv cl (buildContext data p nl true)) :=
  addComment_ctor_merge parse ft st data cv cl p nl gp parentId hfresh hctor
    hgp htarget hparent hvalid

/-- Claim C2 witness: the concrete class-then-constructor scenario. -/
theorem c2_constructor_merge_present_witness :
    (_addComment parseC ftNone stClass dataC "ctordoc" (locAt 3 2) ctorPath
      (locAt 3 2) true).2 = none ∧
    ∃ parentRec, stClass.heap[0]? = some parentRec ∧
      ((_addComment parseC ftNone stClass dataC "ctordoc" (locAt 3 2) ctorPath
        (locAt 3 2) true).1.heap)[0]? =
        some { parentRec with constructorComment := some stClass.heap.length } ∧
      ((_addComment parseC ftNone stClass dataC "ctordoc" (locAt 3 2) ctorPath
        (locAt 3 2) true).1.heap)[stClass.heap.length]? =
        some (parseC "ctordoc" (locAt 3 2) (buildContext dataC ctorPath (locAt 3 2) true)) :=
  c2_constructor_merge_present parseC ftNone stClass dataC "ctordoc" (locAt 3 2)
    ctorPath (locAt 3 2) classNode 0 (by decide) (by decide) (by decide)
    (by decide) (by decide) (by decide)

/-- Claim C3: a context-captured constructor comment whose enclosing class has
no record in the association map produces no record when marked
`hideconstructor` and a standalone record otherwise; the call is total, so
neither case raises an error. -/
theorem c3_constructor_absent_parent (parse : ParseFn) (ft : FindTarget)
    (st : St) (data : SourceData) (cv : String) (cl : Loc) (p : NodePath)
    (nl : Loc) (gp : Node)
    (hfresh : visitedKey data cl ∉ st.visited)
    (hctor : p.node.type = "ClassMethod" ∧ p.node.kind = "constructor")
    (hgp : p.grandparentNode = some gp)
    (htarget : ((ft p).getD p).node ≠ gp)
    (hparent : mapGet st.commentsByNode gp = none) :
    (_addComment parse ft st data cv cl p nl true).2 =
      (if (parse cv cl (buildContext data p nl true)).hideconstructor then none
       else some st.heap.length) :=
  addComment_ctor_noparent parse ft st data cv cl p nl gp hfresh hctor hgp
    htarget hparent

/-- Claim C3 witness: a hidden constructor comment on an undocumented class. -/
theorem c3_constructor_absent_parent_witness :
    (_addComment parseC ftNone freshState dataC "hide" (locAt 3 2) ctorPath
      (locAt 3 2) true).2 =
      (if (parseC "hide" (locAt 3 2) (buildContext dataC ctorPath (locAt 3 2) true)).hideconstructor
       then none else some freshState.heap.length) :=
  c3_constructor_absent_parent parseC ftNone freshState dataC "hide" (locAt 3 2)
    ctorPath (locAt 3 2) classNode (by decide) (by decide) (by decide)
    (by decide) (by decide)

/-- Claim C4: no heap index in the orchestrator's returned sequence carries a
truthy `lends` marker. -/
theorem c4_lends_filtered (parse : ParseFn) (ft : FindTarget)
    (data : SourceData) (config : DocumentationConfig) (ast : Ast) :
    ∀ i ∈ (parseJavaScript parse ft data config ast).2,
      recLends (parseJavaScript parse ft data config ast).1.heap i = false := by
  intro i hi
  unfold parseJavaScript at hi ⊢
  dsimp only at hi ⊢
  exact mem_lends_filter hi

/-- Claim C4 witness: a run whose inner pass produced a `lends` comment still
returns only non-`lends` records. -/
theorem c4_lends_filtered_witness :
    0 ∈ (parseJavaScript parseC ftNone dataC ⟨false⟩ astC).2 ∧
    recLends (parseJavaScript parseC ftNone dataC ⟨false⟩ astC).1.heap 0 = false :=
  ⟨by decide, c4_lends_filtered parseC ftNone dataC ⟨false⟩ astC 0 (by decide)⟩

/-- Claim C5: the sort key built from a base key and a smaller 1-based line
number sorts lexicographically strictly before the one built from a larger
line number, for all line numbers up to 99999999. -/
theorem c5_sortKey_monotone (base : String) (l1 l2 : Nat) (h1 : 1 ≤ l1)
    (h12 : l1 < l2) (h2 : l2 ≤ 99999999) :
    mkSortKey base l1 < mkSortKey base l2 :=
  mkSortKey_lt_mkSortKey base l1 l2 h1 h12 h2

/-- Claim C5 witness: concrete line numbers 3 and 17. -/
theorem c5_sortKey_monotone_witness :
    mkSortKey "x" 3 < mkSortKey "x" 17 :=
  c5_sortKey_monotone "x" 3 17 (by decide) (by decide) (by decide)

/-- Claim C7: a call of `_addComment` whose visited key is already in the
visited set returns absent and leaves the whole state — visited set,
association map, heap, content-parser invocation count, and debug log —
unchanged. -/
theorem c7_duplicate_silent (parse : ParseFn) (ft : FindTarget) (st : St)
    (data : SourceData) (cv : String) (cl : Loc) (p : NodePath) (nl : Loc)
    (flag : Bool) (h : visitedKey data cl ∈ st.visited) :
    _addComment parse ft st data cv cl p nl flag = (st, none) :=
  addComment_visited_hit parse ft st data cv cl p nl flag h

/-- Claim C7 witness: repeating the class-comment call is a silent no-op. -/
theorem c7_duplicate_silent_witness :
    _addComment parseC ftNone stClass dataC "classdoc" (locAt 1 0) classPath
      (locAt 1 0) true = (stClass, none) :=
  c7_duplicate_silent parseC ftNone stClass dataC "classdoc" (locAt 1 0)
    classPath (locAt 1 0) true (by decide)

/-- Claim C8: on first sight the record stored for the comment is the content
parser's output on exactly the context `_addComment` built; with context
capture that context carries the path handle as the non-enumerable `ast`
property (hence absent from enumeration), and carries the `code` property —
the verbatim source slice of the parent node — exactly when a parent node
exists; without context capture the context has neither property. -/
theorem c8_context_capture (parse : ParseFn) (ft : FindTarget) (st : St)
    (data : SourceData) (cv : String) (cl : Loc) (p : NodePath) (nl : Loc)
    (flag : Bool) (hfresh : visitedKey data cl ∉ st.visited) :
    (∃ cc, ((_addComment parse ft st data cv cl p nl flag).1.heap)[st.heap.length]? =
      some { parse cv cl (buildContext data p nl flag) with constructorComment := cc }) ∧
    ({ key := "ast", enumerable := false, value := JsValue.path p } : JsProp) ∈
      buildContext data p nl true ∧
    "ast" ∉ enumKeys (buildContext data p nl true) ∧
    (∀ pp, p.parentPath = some pp →
      ({ key := "code", enumerable := true,
         value := JsValue.str (jsSubstring data.source pp.node.start pp.node.stop) } : JsProp) ∈
        buildContext data p nl true) ∧
    (p.parentPath = none → ∀ pr ∈ buildContext data p nl true, pr.key ≠ "code") ∧
    (∀ pr ∈ buildContext data p nl false, pr.key ≠ "ast" ∧ pr.key ≠ "code") :=
  ⟨addComment_new_record parse ft st data cv cl p nl flag hfresh,
   buildContext_ast_mem data p nl,
   buildContext_ast_not_enum data p nl,
   fun pp hpp => buildContext_code_parent data p nl pp hpp,
   fun hpp => buildContext_no_code_root data p nl hpp,
   buildContext_false_keys data p nl⟩

/-- Claim C8 witness: the constructor path with its class-body parent. -/
theorem c8_context_capture_witness :
    (∃ cc, ((_addComment parseC ftNone freshState dataC "ctordoc" (locAt 3 2)
        ctorPath (locAt 3 2) true).1.heap)[freshState.heap.length]? =
      some { parseC "ctordoc" (locAt 3 2) (buildContext dataC ctorPath (locAt 3 2) true) with
             constructorComment := cc }) ∧
    ({ key := "ast", enumerable := false, value := JsValue.path ctorPath } : JsProp) ∈
      buildContext dataC ctorPath (locAt 3 2) true ∧
    "ast" ∉ enumKeys (buildContext dataC ctorPath (locAt 3 2) true) ∧
    (∀ pp, ctorPath.parentPath = some pp →
      ({ key := "code", enumerable := true,
         value := JsValue.str (jsSubstring dataC.source pp.node.start pp.node.stop) } : JsProp) ∈
        buildContext dataC ctorPath (locAt 3 2) true) ∧
    (ctorPath.parentPath = none →
      ∀ pr ∈ buildContext dataC ctorPath (locAt 3 2) true, pr.key ≠ "code") ∧
    (∀ pr ∈ buildContext dataC ctorPath (locAt 3 2) false,
      pr.key ≠ "ast" ∧ pr.key ≠ "code") :=
  c8_context_capture parseC ftNone freshState dataC "ctordoc" (locAt 3 2)
    ctorPath (locAt 3 2) true (by decide)

/-- Claim C9: files are processed in isolation — the result for a file in any
multi-file run equals the result of processing that file alone, unaffected by
files processed before or after it, and is therefore the same on every
invocation. -/
theorem c9_per_file_isolation (parse : ParseFn) (ft : FindTarget)
    (pre post : List (SourceData × DocumentationConfig × Ast))
    (job : SourceData × DocumentationConfig × Ast) :
    processFiles parse ft (pre ++ job :: post) =
      processFiles parse ft pre ++
        parseJavaScript parse ft job.1 job.2.1 job.2.2 :: processFiles parse ft post := by
  unfold processFiles
  simp

/-- Claim C6: the orchestrator runs exactly one strategy family — its result
depends only on the exported pass when `documentExported` is true and only on
the leading/inner/trailing passes when it is false; in the latter mode the
output is the flattening, in leading-inner-trailing run order, of each pass's
filtered results over the shared threaded state; and the returned sequence is
not sorted by sort key (a concrete run returns a larger sort key before a
smaller one). -/
theorem c6_orchestrator (parse : ParseFn) (ft : FindTarget) (data : SourceData)
    (config : DocumentationConfig) :
    (∀ ast ast' : Ast, config.documentExported = true →
      ast.exportedCalls = ast'.exportedCalls →
      parseJavaScript parse ft data config ast =
        parseJavaScript parse ft data config ast') ∧
    (∀ ast ast' : Ast, config.documentExported = false →
      ast.leadingCalls = ast'.leadingCalls → ast.innerCalls = ast'.innerCalls →
      ast.trailingCalls = ast'.trailingCalls →
      parseJavaScript parse ft data config ast =
        parseJavaScript parse ft data config ast') ∧
    (∀ ast : Ast, config.documentExported = false →
      (parseJavaScript parse ft data config ast).2 =
        dropLends (walkStrategy parse ft false ast.trailingCalls data
            (walkStrategy parse ft false ast.innerCalls data
              (walkStrategy parse ft true ast.leadingCalls data freshState).1).1).1.heap
          (walkStrategy parse ft true ast.leadingCalls data freshState).2 ++
        dropLends (walkStrategy parse ft false ast.trailingCalls data
            (walkStrategy parse ft false ast.innerCalls data
              (walkStrategy parse ft true ast.leadingCalls data freshState).1).1).1.heap
          (walkStrategy parse ft false ast.innerCalls data
            (walkStrategy parse ft true ast.leadingCalls data freshState).1).2 ++
        dropLends (walkStrategy parse ft false ast.trailingCalls data
            (walkStrategy parse ft false ast.innerCalls data
              (walkStrategy parse ft true ast.leadingCalls data freshState).1).1).1.heap
          (walkStrategy parse ft false ast.trailingCalls data
            (walkStrategy parse ft false ast.innerCalls data
              (walkStrategy parse ft true ast.leadingCalls data freshState).1).1).2) ∧
    ((parseJavaScript parseC ftNone dataC ⟨false⟩ astSort).2 = [0, 1] ∧
     recSortKey (parseJavaScript parseC ftNone dataC ⟨false⟩ astSort).1.heap 0 =
       some (JsValue.str (mkSortKey "k" 9)) ∧
     recSortKey (parseJavaScript parseC ftNone dataC ⟨false⟩ astSort).1.heap 1 =
       some (JsValue.str (mkSortKey "k" 2)) ∧
     mkSortKey "k" 2 < mkSortKey "k" 9) := by
  refine ⟨?_, ?_, ?_, by decide, by decide, by decide,
    mkSortKey_lt_mkSortKey "k" 2 9 (by norm_num) (by norm_num) (by norm_num)⟩
  · intro ast ast' hc hexp
    unfold parseJavaScript
    dsimp only
    rw [if_pos hc, if_pos hc, hexp]
  · intro ast ast' hc hl hi ht
    have hcf : ¬(config.documentExported = true) := by rw [hc]; simp
    unfold parseJavaScript
    dsimp only
    rw [if_neg hcf, if_neg hcf, hl, hi, ht]
  · intro ast hc
    have hcf : ¬(config.documentExported = true) := by rw [hc]; simp
    unfold parseJavaScript
    dsimp only
    rw [if_neg hcf]
    dsimp only
    rw [List.filterMap_append, List.filterMap_append]
    rfl

/-- Claim C6 witness: in exported mode, two trees agreeing on the exported
pass give identical results although their leading passes differ. -/
theorem c6_orchestrator_witness :
    parseJavaScript parseC ftNone dataC ⟨true⟩ astE =
      parseJavaScript parseC ftNone dataC ⟨true⟩ astE' :=
  (c6_orchestrator parseC ftNone dataC ⟨true⟩).1 astE astE' rfl rfl

/-- Claim C10: in non-exported mode only the leading pass is bound with
context capture — the state decomposes into a context-captured leading walk
followed by two captureless walks; a captureless walk never touches the
association map, never mutates an existing comment record (so no constructor
merge happens), every record it allocates is parsed from a context carrying
neither `ast` nor `code`, and each of its fresh-key calls returns a
standalone record (no `hideconstructor` suppression). -/
theorem c10_noncontext_strategies (parse : ParseFn) (ft : FindTarget)
    (data : SourceData) :
    (∀ (config : DocumentationConfig) (ast : Ast), config.documentExported = false →
      (parseJavaScript parse ft data config ast).1 =
        (walkStrategy parse ft false ast.trailingCalls data
          (walkStrategy parse ft false ast.innerCalls data
            (walkStrategy parse ft true ast.leadingCalls data freshState).1).1).1) ∧
    (∀ (calls : List CallArgs) (st : St),
      (walkStrategy parse ft false calls data st).1.commentsByNode =
        st.commentsByNode) ∧
    (∀ (calls : List CallArgs) (st : St) (i : Nat), i < st.heap.length →
      ((walkStrategy parse ft false calls data st).1.heap)[i]? = st.heap[i]?) ∧
    (∀ (calls : List CallArgs) (st : St) (i : Nat) (rec : CommentRec),
      st.heap.length ≤ i →
      ((walkStrategy parse ft false calls data st).1.heap)[i]? = some rec →
      ∃ c ∈ calls, rec = parse c.commentValue c.commentLoc
        (buildContext data c.path c.nodeLoc false)) ∧
    (∀ (p : NodePath) (nl : Loc), ∀ pr ∈ buildContext data p nl false,
      pr.key ≠ "ast" ∧ pr.key ≠ "code") ∧
    (∀ (st : St) (cv : String) (cl : Loc) (p : NodePath) (nl : Loc),
      visitedKey data cl ∉ st.visited →
      (_addComment parse ft st data cv cl p nl false).2 = some st.heap.length) := by
  refine ⟨?_, walkStrategy_false_commentsByNode parse ft data,
    walkStrategy_false_heap_stable parse ft data,
    walkStrategy_false_new_records parse ft data,
    fun p nl => buildContext_false_keys data p nl, ?_⟩
  · intro config ast hc
    have hcf : ¬(config.documentExported = true) := by rw [hc]; simp
    unfold parseJavaScript
    dsimp only
    rw [if_neg hcf]
  · intro st cv cl p nl hfresh
    rw [addComment_noContext parse ft st data cv cl p nl hfresh]

/-- Claim C10 witness: the inner-pass call of the concrete run is bound
without context capture and returns a standalone record from the fresh
state. -/
theorem c10_noncontext_strategies_witness :
    (parseJavaScript parseC ftNone dataC ⟨false⟩ astC).1 =
      (walkStrategy parseC ftNone false astC.trailingCalls dataC
        (walkStrategy parseC ftNone false astC.innerCalls dataC
          (walkStrategy parseC ftNone true astC.leadingCalls dataC freshState).1).1).1 ∧
    (_addComment parseC ftNone freshState dataC "lends" (locAt 4 0) classPath
      (locAt 4 0) false).2 = some freshState.heap.length :=
  ⟨(c10_noncontext_strategies parseC ftNone dataC).1 ⟨false⟩ astC rfl,
   (c10_noncontext_strategies parseC ftNone dataC).2.2.2.2.2 freshState "lends"
     (locAt 4 0) classPath (locAt 4 0) (by decide)⟩
